import Mathlib

/-!
Verification development for `lib/discoverer.js` of the loopback-discovery
repository: a shallow embedding of the discoverer's data model and of the
operations `addModel`, `casePropertiesDataType`, `saveModel` and
`discoverModels`, followed by theorems settling the specification claims.

Modelling choices, recorded once here:
* JavaScript objects whose keys are looked up dynamically (a model's
  `properties`, `model-config.json`) are embedded as association lists
  `List (String × α)` in insertion order, with `objGet` / `objSet` /
  `objDelete` mirroring property read, property write (overwrite keeps the
  position, a fresh key is appended) and `delete`.
* The `for (var p in model.properties)` loop of `saveModel` mutates the
  object it iterates: following the engine's behaviour the embedding
  snapshots the key list when the loop starts, and a key whose entry was
  deleted before its visit is skipped; keys added during the loop are not
  visited.
* `process.exit(1)` is a distinct terminal outcome (`SaveResult.exited`,
  `RunResult.exited`): it is neither an error callback nor a success.
* Node-style callbacks `cb(err)` / `cb(null, x)` become explicit result
  values; external collaborators (the connector's
  `discoverModelDefinitions` and `discoverAndBuildModels`) are parameters
  returning `Except`.
* The filesystem is a function `String → Option Model` for definition
  files, threaded through the run; directory existence and `mkDir`
  success (from `lib/utils.js`, whose source is not in the snapshot) are
  modelled from the spec as a directory list plus a success flag.
* async `mapSeries` stops at the first error but hands the partial result
  array (with `undefined` at the failed slot, embedded as `none`) to its
  final callback, exactly as the library does; async `eachSeries` halts at
  the first error.
-/

/-- The `mysql` metadata object a discovered property carries
(`model.properties[p].mysql` in `saveModel`). -/
structure MySqlMeta where
  columnName : String
  deriving DecidableEq

/-- The `mysql` sub-object of a model's settings
(`model.settings.mysql` in `saveModel`). -/
structure MySqlSettings where
  table : Option String
  deriving DecidableEq

/-- A model's `settings`: the optional mysql sub-object plus any other
hand-authored settings entries, kept opaque. -/
structure Settings where
  mysql : Option MySqlSettings
  extra : List (String × String)
  deriving DecidableEq

/-- A discovered property. `type` is the name of the constructor function
discovery produced (`model.properties[p].type.name`), e.g. `"String"`;
after `casePropertiesDataType` it is the lowercase string tag. -/
structure PropertyDef where
  type : String
  mysql : Option MySqlMeta
  deriving DecidableEq

/-- A model definition: `name`, `properties` in insertion order,
`settings`, and any other top-level fields of a definition file
(custom metadata), kept opaque. -/
structure Model where
  name : String
  properties : List (String × PropertyDef)
  settings : Settings
  extra : List (String × String)
  deriving DecidableEq

/-- Reading a key of a JavaScript object: first matching entry. -/
def objGet {α : Type} : List (String × α) → String → Option α
  | [], _ => none
  | (k', v) :: rest, k => if k' = k then some v else objGet rest k

/-- Writing a key of a JavaScript object: an existing key keeps its
position and gets the new value, a fresh key is appended at the end. -/
def objSet {α : Type} : List (String × α) → String → α → List (String × α)
  | [], k, v => [(k, v)]
  | (k', v') :: rest, k, v =>
      if k' = k then (k', v) :: rest else (k', v') :: objSet rest k v

/-- The `delete` operator on a JavaScript object key. -/
def objDelete {α : Type} (o : List (String × α)) (k : String) :
    List (String × α) :=
  o.filter (fun p => p.1 != k)

/-- Errors flowing through the Node callbacks. `err` is a
`new Error(message)` the discoverer constructs; `typeError` is a runtime
exception caught by `saveModel`'s try/catch; `external` tags an error
value produced by the connector. -/
inductive JsError where
  | err (message : String)
  | typeError (message : String)
  | external (tag : Nat)
  deriving DecidableEq

/-- Outcome of one `saveModel` call: `process.exit`, `cb(err)`,
`cb(null, model)` or the skip sentinel `cb(null, null)`. -/
inductive SaveResult where
  | exited (code : Nat)
  | errored (e : JsError)
  | saved (m : Model)
  | skipped
  deriving DecidableEq

/-- The definition-file store: path to stored model. -/
abbrev FS := String → Option Model

/-- Lines 104-112 of `saveModel`: if `model.settings.mysql.table` is a
non-empty string different from the model name, force the model name back
to the MySQL table name. -/
def forceTableName (model : Model) : Model :=
  match model.settings.mysql with
  | some ms =>
      match ms.table with
      | some t => if t ≠ "" ∧ model.name ≠ t then { model with name := t } else model
      | none => model
  | none => model

/-- The property loop of `saveModel` (lines 113-141) over a snapshot of
the keys: a visited property with no `mysql` metadata triggers
`process.exit(1)`; a property whose key differs from
`mysql.columnName` is re-keyed under the column name and the old key
deleted. -/
inductive ReconcileResult where
  | exited
  | ok (props : List (String × PropertyDef))
  deriving DecidableEq

/-- One pass of the `for (var p in model.properties)` loop. -/
def propLoop : List String → List (String × PropertyDef) → ReconcileResult
  | [], props => .ok props
  | k :: ks, props =>
      match objGet props k with
      | none => propLoop ks props
      | some v =>
          match v.mysql with
          | none => .exited
          | some m =>
              if k ≠ m.columnName then
                propLoop ks (objDelete (objSet props m.columnName v) k)
              else
                propLoop ks props

/-- The whole property-reconciliation loop of `saveModel`, started on the
keys present when the loop begins. -/
def reconcileProps (props : List (String × PropertyDef)) : ReconcileResult :=
  propLoop (props.map Prod.fst) props

/-- JavaScript `toLowerCase` on the type-tag names discovery yields
(ASCII constructor names), as a list-level map so it evaluates in the
kernel. -/
def lowerString (s : String) : String :=
  String.mk (s.data.map Char.toLower)

/-- Lowercasing of every property's type tag
(`casePropertiesDataType`, lines 93-101), on the property list. -/
def casePropsList (props : List (String × PropertyDef)) :
    List (String × PropertyDef) :=
  props.map fun p => (p.1, { p.2 with type := lowerString p.2.type })

/-- `Discoverer.prototype.casePropertiesDataType`: rewrite every
property's `type` to the lowercase form of the constructor name. -/
def casePropertiesDataType (m : Model) : Model :=
  { m with properties := casePropsList m.properties }

/-- `path.join(modelsPath, model.name + '.json')`. -/
def modelFilePath (dir : String) (name : String) : String :=
  dir ++ "/" ++ name ++ ".json"

/-- Lines 149-154 of `saveModel`: if a definition file exists, keep it and
overwrite only its `properties`; otherwise use the discovered model. -/
def mergeWithExisting (fs : FS) (modelPath : String) (m : Model) : Model :=
  match fs modelPath with
  | some original => { original with properties := m.properties }
  | none => m

/-- `Discoverer.prototype.saveModel` (lines 103-163): force the table
name, reconcile the properties (possibly exiting the process), then
either write the (case-normalized, merged) definition, skip, or — for the
callers that pass no model — fail. Returns the callback outcome and the
filesystem after the call. -/
def saveModel (fs : FS) (dir : String) (model : Model) (overwrite : Bool) :
    SaveResult × FS :=
  let model1 := forceTableName model
  match reconcileProps model1.properties with
  | .exited => (.exited 1, fs)
  | .ok props' =>
      let model2 : Model := { model1 with properties := props' }
      let modelPath := modelFilePath dir model2.name
      let exist := (fs modelPath).isSome
      if !exist || overwrite then
        let model3 := casePropertiesDataType model2
        let final := mergeWithExisting fs modelPath model3
        (.saved final, fun p => if p = modelPath then some final else fs p)
      else
        (.skipped, fs)

/-- `saveModel` as invoked by the orchestrator's save loop, where the
model argument can be `undefined` (a failed build slot): accessing
`model.settings` then throws a TypeError that the try/catch turns into
`cb(err)`. -/
def saveModelJS (fs : FS) (dir : String) (m : Option Model)
    (overwrite : Bool) : SaveResult × FS :=
  match m with
  | none => (.errored (.typeError "Cannot read properties of undefined"), fs)
  | some model => saveModel fs dir model overwrite

/-- One entry of `model-config.json`: the fields `addModel` touches plus
any other hand-authored fields, kept opaque. -/
structure RegistryEntry where
  dataSource : String
  publicFlag : Bool
  extra : List (String × String)
  deriving DecidableEq

/-- `Discoverer.prototype.addModel` (lines 72-85): insert a fresh entry
`{dataSource, public: isPublic || false}`, or update `dataSource` and
`public` of an existing entry in place. `publicFlag` embeds the JSON key
`public`; `isPublic` is `none` when the model carries no flag. -/
def addModel (modelConfig : List (String × RegistryEntry)) (dsName : String)
    (name : String) (isPublic : Option Bool) :
    List (String × RegistryEntry) :=
  match objGet modelConfig name with
  | none => modelConfig ++ [(name, ⟨dsName, isPublic.getD false, []⟩)]
  | some old =>
      objSet modelConfig name
        { old with dataSource := dsName, publicFlag := isPublic.getD false }

/-- A table descriptor returned by `discoverModelDefinitions`. -/
structure Table where
  name : String
  deriving DecidableEq

/-- The external schema source: the result of
`connector.discoverModelDefinitions` and of
`dataSource.discoverAndBuildModels`, the latter keyed by model name as
the connector returns it. -/
structure Connector where
  tables : Except JsError (List Table)
  build : String → Except JsError (List (String × Model))

/-- Lines 194-202 of `discoverModels`: `tables.filter` with the callback
that splices each matched name out of `options.tablesList`. Returns the
surviving tables and the final state of the caller's list. -/
def filterTables : List Table → List String → List Table × List String
  | [], req => ([], req)
  | t :: ts, req =>
      if t.name ∈ req then
        let r := filterTables ts (req.erase t.name)
        (t :: r.1, r.2)
      else
        filterTables ts req

/-- The `async.mapSeries` build phase (lines 210-219): build each table in
order, halting at the first error; the partial result array (with the
failed slot `undefined`, embedded as `none`) is handed on regardless.
An empty keyed result makes `models[Object.keys(models)[0]].definition`
throw. -/
def buildModels (build : String → Except JsError (List (String × Model))) :
    List Table → Option JsError × List (Option Model)
  | [] => (none, [])
  | t :: ts =>
      match build t.name with
      | .error e => (some e, [none])
      | .ok models =>
          match models with
          | [] => (some (.typeError "Cannot read properties of undefined"), [none])
          | (_, m) :: _ =>
              let r := buildModels build ts
              (r.1, some m :: r.2)

/-- Outcome of the `async.eachSeries` save loop. -/
inductive LoopOut where
  | exited (code : Nat)
  | errored (e : JsError)
  | ok
  deriving DecidableEq

/-- The save loop (lines 238-244): `saveModel` on each built model in
order, halting at the first `cb(err)` (and vanishing on `process.exit`).
Also returns the models on which a save was attempted. -/
def saveLoop (dir : String) (overwrite : Bool) :
    List (Option Model) → FS → LoopOut × FS × List (Option Model)
  | [], fs => (.ok, fs, [])
  | m :: ms, fs =>
      let r := saveModelJS fs dir m overwrite
      match r.1 with
      | .exited c => (.exited c, r.2, [m])
      | .errored e => (.errored e, r.2, [m])
      | _ =>
          let rest := saveLoop dir overwrite ms r.2
          (rest.1, rest.2.1, m :: rest.2.2)

/-- Terminal outcome of a `discoverModels` run: process exit, `cb(err)`,
or `cb(null, models)`. -/
inductive RunResult where
  | exited (code : Nat)
  | errored (e : JsError)
  | done (models : List (Option Model))
  deriving DecidableEq

/-- Whether a run outcome is an error delivered to the callback. -/
def RunResult.isErrored : RunResult → Bool
  | .errored _ => true
  | _ => false

/-- Everything observable about one `discoverModels` call: the callback
outcome, the definition files afterwards, the state of the caller's
`options.tablesList`, whether directory creation was attempted, and the
models handed to `saveModel`. -/
structure DiscoverResult where
  result : RunResult
  files : FS
  tablesList : Option (List String)
  mkdirAttempted : Bool
  saveAttempts : List (Option Model)

/-- The `async.mapSeries` final callback (lines 219-244): NOTE that the
code ignores the build error `err` it receives — it resolves the output
directory, creates it if absent (`Unable to create models folder` on
failure), and runs the save loop over the (possibly partial) build
results. Directory existence and `mkDir` success are modelled from the
spec (`exists(path) -> bool`; `ensureDirectory(path)`), `lib/utils.js`
not being part of the snapshot. -/
def discoverCore (conn : Connector) (fs : FS) (dirs : List String)
    (appPath : String) (outputDir : Option String) (overwrite : Bool)
    (mkdirOk : Bool) (tables : List Table) (remOpt : Option (List String)) :
    DiscoverResult :=
  let built := buildModels conn.build tables
  let models := built.2
  let modelsPath :=
    match outputDir with
    | some d => appPath ++ "/" ++ d
    | none => appPath ++ "/common/models"
  let dirExists := modelsPath ∈ dirs
  if !dirExists && !mkdirOk then
    ⟨.errored (.err "Unable to create models folder"), fs, remOpt, true, []⟩
  else
    let r := saveLoop modelsPath overwrite models fs
    match r.1 with
    | .exited c => ⟨.exited c, r.2.1, remOpt, !dirExists, r.2.2⟩
    | .errored e => ⟨.errored e, r.2.1, remOpt, !dirExists, r.2.2⟩
    | .ok => ⟨.done models, r.2.1, remOpt, !dirExists, r.2.2⟩

/-- `Discoverer.prototype.discoverModels` (lines 165-244) on a discoverer
whose application and data source are already configured: discover table
definitions, filter them against `options.tablesList` (failing with
`Tables not found: …` when names remain), then build and persist. -/
def discoverModels (conn : Connector) (fs : FS) (dirs : List String)
    (appPath : String) (tablesList : Option (List String))
    (outputDir : Option String) (overwrite : Bool) (mkdirOk : Bool) :
    DiscoverResult :=
  match conn.tables with
  | .error e => ⟨.errored e, fs, tablesList, false, []⟩
  | .ok tables =>
      match tablesList with
      | none =>
          discoverCore conn fs dirs appPath outputDir overwrite mkdirOk
            tables none
      | some req =>
          let r := filterTables tables req
          if r.2.length > 0 then
            ⟨.errored (.err ("Tables not found: " ++ String.intercalate ", " r.2)),
              fs, some r.2, false, []⟩
          else
            discoverCore conn fs dirs appPath outputDir overwrite mkdirOk
              r.1 (some r.2)

/-! Association-list lemmas about `objGet`, `objSet`, `objDelete`. -/

/-- Unfolding `objGet` on a cons cell. -/
theorem objGet_cons {α : Type} (k0 : String) (v0 : α)
    (rest : List (String × α)) (k : String) :
    objGet ((k0, v0) :: rest) k = if k0 = k then some v0 else objGet rest k :=
  rfl

/-- Unfolding `objSet` on a cons cell. -/
theorem objSet_cons {α : Type} (k0 : String) (v0 : α)
    (rest : List (String × α)) (k : String) (v : α) :
    objSet ((k0, v0) :: rest) k v =
      if k0 = k then (k0, v) :: rest else (k0, v0) :: objSet rest k v :=
  rfl

/-- Unfolding `objDelete` on a cons cell. -/
theorem objDelete_cons {α : Type} (k0 : String) (v0 : α)
    (rest : List (String × α)) (k : String) :
    objDelete ((k0, v0) :: rest) k =
      if k0 = k then objDelete rest k else (k0, v0) :: objDelete rest k := by
  simp only [objDelete, List.filter_cons]
  by_cases h : k0 = k
  · simp [h]
  · simp [h]

/-- Looking up a key another key was written to does not change. -/
theorem objGet_objSet_ne {α : Type} (o : List (String × α)) (k' k : String)
    (v : α) (h : k' ≠ k) : objGet (objSet o k' v) k = objGet o k := by
  induction o with
  | nil => simp [objSet, objGet_cons, objGet, h]
  | cons p rest ih =>
      obtain ⟨k0, v0⟩ := p
      rw [objSet_cons]
      by_cases h0 : k0 = k'
      · subst h0
        have hk : ¬ k0 = k := fun hh => h hh
        simp [objGet_cons, hk]
      · rw [if_neg h0, objGet_cons, objGet_cons, ih]

/-- Writing a key makes it readable with the written value. -/
theorem objGet_objSet_self {α : Type} (o : List (String × α)) (k : String)
    (v : α) : objGet (objSet o k v) k = some v := by
  induction o with
  | nil => simp [objSet, objGet_cons, objGet]
  | cons p rest ih =>
      obtain ⟨k0, v0⟩ := p
      rw [objSet_cons]
      by_cases h0 : k0 = k
      · subst h0
        simp [objGet_cons]
      · rw [if_neg h0, objGet_cons, if_neg h0, ih]

/-- Deleting one key leaves the others readable unchanged. -/
theorem objGet_objDelete_ne {α : Type} (o : List (String × α)) (k' k : String)
    (h : k' ≠ k) : objGet (objDelete o k') k = objGet o k := by
  induction o with
  | nil => simp [objDelete, objGet]
  | cons p rest ih =>
      obtain ⟨k0, v0⟩ := p
      rw [objDelete_cons]
      by_cases h0 : k0 = k'
      · subst h0
        have hk : ¬ k0 = k := fun hh => h hh
        rw [if_pos rfl, ih, objGet_cons, if_neg hk]
      · rw [if_neg h0, objGet_cons, objGet_cons, ih]

/-- A deleted key reads as absent. -/
theorem objGet_objDelete_self {α : Type} (o : List (String × α)) (k : String) :
    objGet (objDelete o k) k = none := by
  induction o with
  | nil => simp [objDelete, objGet]
  | cons p rest ih =>
      obtain ⟨k0, v0⟩ := p
      rw [objDelete_cons]
      by_cases h0 : k0 = k
      · rw [if_pos h0]
        exact ih
      · rw [if_neg h0, objGet_cons, if_neg h0]
        exact ih

/-- Deletion cannot make an absent key present. -/
theorem objGet_objDelete_none {α : Type} (o : List (String × α))
    (k' k : String) (h : objGet o k = none) :
    objGet (objDelete o k') k = none := by
  by_cases hk : k' = k
  · subst hk
    exact objGet_objDelete_self o k'
  · rw [objGet_objDelete_ne o k' k hk]
    exact h

/-- A successful lookup exhibits a member of the list. -/
theorem objGet_mem {α : Type} (o : List (String × α)) (k : String) (v : α)
    (h : objGet o k = some v) : (k, v) ∈ o := by
  induction o with
  | nil => simp [objGet] at h
  | cons p rest ih =>
      obtain ⟨k0, v0⟩ := p
      rw [objGet_cons] at h
      by_cases h0 : k0 = k
      · subst h0
        rw [if_pos rfl, Option.some.injEq] at h
        subst h
        exact List.mem_cons_self _ _
      · rw [if_neg h0] at h
        exact List.mem_cons_of_mem _ (ih h)

/-- A successful lookup puts the key among the keys. -/
theorem objGet_mem_keys {α : Type} (o : List (String × α)) (k : String)
    (v : α) (h : objGet o k = some v) : k ∈ o.map Prod.fst :=
  List.mem_map.mpr ⟨(k, v), objGet_mem o k v h, rfl⟩

/-- Every member of a written list is the written value or an original
member (value-wise). -/
theorem mem_objSet_val {α : Type} (o : List (String × α)) (k : String)
    (v : α) (p : String × α) (hp : p ∈ objSet o k v) : p.2 = v ∨ p ∈ o := by
  induction o with
  | nil =>
      simp only [objSet, List.mem_singleton] at hp
      subst hp
      exact Or.inl rfl
  | cons q rest ih =>
      obtain ⟨k0, v0⟩ := q
      rw [objSet_cons] at hp
      by_cases h0 : k0 = k
      · rw [if_pos h0, List.mem_cons] at hp
        rcases hp with hp | hp
        · subst hp
          exact Or.inl rfl
        · exact Or.inr (List.mem_cons_of_mem _ hp)
      · rw [if_neg h0, List.mem_cons] at hp
        rcases hp with hp | hp
        · subst hp
          exact Or.inr (List.mem_cons_self _ _)
        · rcases ih hp with h' | h'
          · exact Or.inl h'
          · exact Or.inr (List.mem_cons_of_mem _ h')

/-- Members survive deletion only if they were members before. -/
theorem mem_objDelete {α : Type} (o : List (String × α)) (k : String)
    (p : String × α) (hp : p ∈ objDelete o k) : p ∈ o :=
  List.mem_of_mem_filter hp

/-! Invariants of the property-reconciliation loop. -/

/-- No property value of `props` declares `k` as its database column
name, as a decidable check. -/
def noColTarget (props : List (String × PropertyDef)) (k : String) : Bool :=
  props.all fun p =>
    match p.2.mysql with
    | none => true
    | some m => m.columnName != k

/-- Reading `noColTarget` back as a statement about members. -/
theorem noColTarget_spec (props : List (String × PropertyDef)) (k : String)
    (h : noColTarget props k = true) :
    ∀ p ∈ props, ∀ m, p.2.mysql = some m → m.columnName ≠ k := by
  intro p hp m hm
  have := (List.all_eq_true.mp h) p hp
  rw [hm] at this
  simpa using this

/-- `forceTableName` never changes the property list. -/
theorem forceTableName_properties (m : Model) :
    (forceTableName m).properties = m.properties := by
  unfold forceTableName
  repeat' split
  all_goals rfl

/-- The no-column-target invariant survives one re-keying step, because
the moved value is itself a value of the list. -/
theorem noColValues_step (props : List (String × PropertyDef))
    (k k1 cn : String) (v1 : PropertyDef)
    (hmem : (k1, v1) ∈ props)
    (hinv : ∀ p ∈ props, ∀ m, p.2.mysql = some m → m.columnName ≠ k) :
    ∀ p ∈ objDelete (objSet props cn v1) k1, ∀ m, p.2.mysql = some m →
      m.columnName ≠ k := by
  intro p hp m hm
  have hp' := mem_objDelete _ _ _ hp
  rcases mem_objSet_val _ _ _ _ hp' with hv | hv
  · exact hinv (k1, v1) hmem m (by rw [← hv]; exact hm)
  · exact hinv p hv m hm

/-- Once the key `k` is absent and no value targets it as a column name,
the rest of the loop keeps it absent. -/
theorem propLoop_keeps_none (k : String) :
    ∀ (keys : List String) (props props' : List (String × PropertyDef)),
      objGet props k = none →
      (∀ p ∈ props, ∀ m, p.2.mysql = some m → m.columnName ≠ k) →
      propLoop keys props = .ok props' →
      objGet props' k = none := by
  intro keys
  induction keys with
  | nil =>
      intro props props' hnone _ hloop
      simp only [propLoop, ReconcileResult.ok.injEq] at hloop
      rw [← hloop]
      exact hnone
  | cons k1 ks ih =>
      intro props props' hnone hinv hloop
      simp only [propLoop] at hloop
      rcases hv1 : objGet props k1 with _ | v1
      · simp only [hv1] at hloop
        exact ih props props' hnone hinv hloop
      · simp only [hv1] at hloop
        rcases hmy : v1.mysql with _ | m1
        · simp only [hmy] at hloop
          cases hloop
        · simp only [hmy] at hloop
          by_cases hcn : k1 ≠ m1.columnName
          · rw [if_pos hcn] at hloop
            have hmem := objGet_mem _ _ _ hv1
            have hcnk : m1.columnName ≠ k := hinv (k1, v1) hmem m1 hmy
            have hnone' :
                objGet (objDelete (objSet props m1.columnName v1) k1) k = none := by
              apply objGet_objDelete_none
              rw [objGet_objSet_ne _ _ _ _ hcnk]
              exact hnone
            exact ih _ props' hnone'
              (noColValues_step props k k1 m1.columnName v1 hmem hinv) hloop
          · rw [if_neg hcn] at hloop
            exact ih props props' hnone hinv hloop

/-- If a key visited by the loop holds a property without `mysql`
metadata, and no property targets that key as a column name (so no
re-keying can mask it), the loop exits the process. -/
theorem propLoop_exits (k : String) (v : PropertyDef) :
    ∀ (keys : List String) (props : List (String × PropertyDef)),
      k ∈ keys →
      objGet props k = some v →
      v.mysql = none →
      (∀ p ∈ props, ∀ m, p.2.mysql = some m → m.columnName ≠ k) →
      propLoop keys props = .exited := by
  intro keys
  induction keys with
  | nil =>
      intro props hk
      cases hk
  | cons k1 ks ih =>
      intro props hk hget hmy hinv
      by_cases hk1 : k1 = k
      · subst hk1
        simp only [propLoop, hget, hmy]
      · have hks : k ∈ ks := by
          rcases List.mem_cons.mp hk with h | h
          · exact absurd h.symm hk1
          · exact h
        simp only [propLoop]
        rcases hv1 : objGet props k1 with _ | v1
        · simp only [hv1]
          exact ih props hks hget hmy hinv
        · simp only [hv1]
          rcases hmy1 : v1.mysql with _ | m1
          · simp only [hmy1]
          · simp only [hmy1]
            by_cases hcn : k1 ≠ m1.columnName
            · rw [if_pos hcn]
              have hmem := objGet_mem _ _ _ hv1
              have hcnk : m1.columnName ≠ k := hinv (k1, v1) hmem m1 hmy1
              have hget' :
                  objGet (objDelete (objSet props m1.columnName v1) k1) k = some v := by
                rw [objGet_objDelete_ne _ _ _ (fun hh => hk1 hh),
                  objGet_objSet_ne _ _ _ _ hcnk]
                exact hget
              exact ih _ hks hget' hmy
                (noColValues_step props k k1 m1.columnName v1 hmem hinv)
            · rw [if_neg hcn]
              exact ih props hks hget hmy hinv

/-- If a key visited by the loop holds a property whose declared column
name differs from the key, and no property targets that key as a column
name, then a successful loop leaves no property under that key. -/
theorem propLoop_removes_key (k : String) (v : PropertyDef) (mm : MySqlMeta) :
    ∀ (keys : List String) (props props' : List (String × PropertyDef)),
      k ∈ keys →
      objGet props k = some v →
      v.mysql = some mm →
      mm.columnName ≠ k →
      (∀ p ∈ props, ∀ m, p.2.mysql = some m → m.columnName ≠ k) →
      propLoop keys props = .ok props' →
      objGet props' k = none := by
  intro keys
  induction keys with
  | nil =>
      intro props props' hk
      cases hk
  | cons k1 ks ih =>
      intro props props' hk hget hmy hne hinv hloop
      by_cases hk1 : k1 = k
      · subst hk1
        simp only [propLoop, hget, hmy] at hloop
        have hkcn : k1 ≠ mm.columnName := fun hh => hne (hh.symm)
        rw [if_pos hkcn] at hloop
        have hmem := objGet_mem _ _ _ hget
        have hnone :
            objGet (objDelete (objSet props mm.columnName v) k1) k1 = none :=
          objGet_objDelete_self _ _
        exact propLoop_keeps_none k1 ks _ props' hnone
          (noColValues_step props k1 k1 mm.columnName v hmem hinv) hloop
      · have hks : k ∈ ks := by
          rcases List.mem_cons.mp hk with h | h
          · exact absurd h.symm hk1
          · exact h
        simp only [propLoop] at hloop
        rcases hv1 : objGet props k1 with _ | v1
        · simp only [hv1] at hloop
          exact ih props props' hks hget hmy hne hinv hloop
        · simp only [hv1] at hloop
          rcases hmy1 : v1.mysql with _ | m1
          · simp only [hmy1] at hloop
            cases hloop
          · simp only [hmy1] at hloop
            by_cases hcn : k1 ≠ m1.columnName
            · rw [if_pos hcn] at hloop
              have hmem := objGet_mem _ _ _ hv1
              have hcnk : m1.columnName ≠ k := hinv (k1, v1) hmem m1 hmy1
              have hget' :
                  objGet (objDelete (objSet props m1.columnName v1) k1) k = some v := by
                rw [objGet_objDelete_ne _ _ _ (fun hh => hk1 hh),
                  objGet_objSet_ne _ _ _ _ hcnk]
                exact hget
              exact ih _ props' hks hget' hmy hne
                (noColValues_step props k k1 m1.columnName v1 hmem hinv) hloop
            · rw [if_neg hcn] at hloop
              exact ih props props' hks hget hmy hne hinv hloop

/-- Lookup commutes with the type-tag lowercasing pass. -/
theorem objGet_casePropsList (props : List (String × PropertyDef))
    (k : String) :
    objGet (casePropsList props) k =
      Option.map (fun v => { v with type := lowerString v.type }) (objGet props k) := by
  induction props with
  | nil => simp [casePropsList, objGet]
  | cons p rest ih =>
      obtain ⟨k0, v0⟩ := p
      simp only [casePropsList, List.map_cons] at ih ⊢
      by_cases h0 : k0 = k
      · subst h0
        simp [objGet_cons]
      · rw [objGet_cons, objGet_cons, if_neg h0, if_neg h0]
        exact ih

/-! Lemmas about the table filter and the orchestrator. -/

/-- Filter step on a table whose name is requested: keep it, consume the
first occurrence of the name. -/
theorem filterTables_cons_mem (t : Table) (ts : List Table)
    (req : List String) (h : t.name ∈ req) :
    filterTables (t :: ts) req =
      ((t :: (filterTables ts (req.erase t.name)).1),
        (filterTables ts (req.erase t.name)).2) := by
  simp [filterTables, h]

/-- Filter step on a table whose name is not requested: drop it. -/
theorem filterTables_cons_not_mem (t : Table) (ts : List Table)
    (req : List String) (h : t.name ∉ req) :
    filterTables (t :: ts) req = filterTables ts req := by
  simp [filterTables, h]

/-- Each discovered table consumes at most one occurrence of its name, so
the leftover list keeps at least `requested minus discovered` occurrences
of any name. -/
theorem filterTables_count_ge (n : String) :
    ∀ (ts : List Table) (req : List String),
      req.count n ≤ ((filterTables ts req).2).count n + (ts.map Table.name).count n := by
  intro ts
  induction ts with
  | nil =>
      intro req
      simp [filterTables]
  | cons t ts ih =>
      intro req
      by_cases hmem : t.name ∈ req
      · rw [filterTables_cons_mem t ts req hmem]
        dsimp only
        have h1 := ih (req.erase t.name)
        by_cases hn : t.name = n
        · subst hn
          have h2 : (req.erase t.name).count t.name = req.count t.name - 1 :=
            List.count_erase_self t.name req
          have h3 : 0 < req.count t.name := List.count_pos_iff.mpr hmem
          have h4 : (List.count t.name (List.map Table.name (t :: ts))) =
              (List.map Table.name ts).count t.name + 1 := by
            simp [List.count_cons_self]
          omega
        · have h2 : (req.erase t.name).count n = req.count n :=
            List.count_erase_of_ne (fun hh => hn hh.symm) req
          have h4 : (List.count n (List.map Table.name (t :: ts))) =
              (List.map Table.name ts).count n := by
            simp only [List.map_cons]
            exact List.count_cons_of_ne (fun hh => hn hh.symm) _
          omega
      · rw [filterTables_cons_not_mem t ts req hmem]
        have h1 := ih req
        by_cases hn : t.name = n
        · subst hn
          have h4 : (List.count t.name (List.map Table.name (t :: ts))) =
              (List.map Table.name ts).count t.name + 1 := by
            simp [List.count_cons_self]
          omega
        · have h4 : (List.count n (List.map Table.name (t :: ts))) =
              (List.map Table.name ts).count n := by
            simp only [List.map_cons]
            exact List.count_cons_of_ne (fun hh => hn hh.symm) _
          omega

/-- When names are left over after filtering, `discoverModels` fails with
the joined `Tables not found` error (shared unfolding lemma). -/
theorem discoverModels_tables_not_found (conn : Connector) (fs : FS)
    (dirs : List String) (appPath : String) (req : List String)
    (outputDir : Option String) (overwrite mkdirOk : Bool)
    (tables : List Table)
    (hT : conn.tables = .ok tables)
    (hrem : (filterTables tables req).2 ≠ []) :
    discoverModels conn fs dirs appPath (some req) outputDir overwrite mkdirOk =
      ⟨.errored (.err ("Tables not found: " ++
          String.intercalate ", " (filterTables tables req).2)),
        fs, some (filterTables tables req).2, false, []⟩ := by
  unfold discoverModels
  rw [hT]
  have hlen : (filterTables tables req).2.length > 0 := List.length_pos.mpr hrem
  simp only [hlen, if_pos]

/-- The build-and-persist phase never touches `options.tablesList`. -/
theorem discoverCore_tablesList (conn : Connector) (fs : FS)
    (dirs : List String) (appPath : String) (outputDir : Option String)
    (overwrite mkdirOk : Bool) (tables : List Table)
    (remOpt : Option (List String)) :
    (discoverCore conn fs dirs appPath outputDir overwrite mkdirOk tables
      remOpt).tablesList = remOpt := by
  unfold discoverCore
  dsimp only
  repeat' split
  all_goals rfl

/-- The merged model always carries the incoming properties. -/
theorem mergeWithExisting_properties (fs : FS) (p : String) (m : Model) :
    (mergeWithExisting fs p m).properties = m.properties := by
  unfold mergeWithExisting
  cases hfs : fs p with
  | none => rfl
  | some orig => rfl

/-! Concrete inputs used by witnesses and counterexamples. -/

/-- The empty definition-file store. -/
def fs0 : FS := fun _ => none

/-- A discovered property whose key `userName` differs from its declared
column name `user_name`. -/
def propUser : PropertyDef := ⟨"String", some ⟨"user_name"⟩⟩

/-- A discovered model with one camelCase-keyed property. -/
def modelW : Model := ⟨"User", [("userName", propUser)], ⟨none, []⟩, []⟩

/-- A hand-edited existing definition file with custom settings and
custom top-level metadata. -/
def origW : Model :=
  ⟨"User", [("old", ⟨"string", some ⟨"old"⟩⟩)],
    ⟨none, [("someCustomRule", "x")]⟩, [("customMeta", "y")]⟩

/-- A store holding `origW` at the model path of `modelW`. -/
def fsW : FS := fun p =>
  if p = "app/common/models/User.json" then some origW else none

/-! Claim theorems. -/

/-- C3: when the target definition file exists and overwrite is true, the
written file is exactly the existing definition with its `properties`
replaced wholesale by the (reconciled, case-normalized) discovered
properties; `name`, `settings` and every other top-level field of the
existing definition are preserved verbatim. -/
theorem saveModel_overwrite_preserves_other_fields (fs : FS) (dir : String)
    (model orig : Model) (props' : List (String × PropertyDef))
    (hrec : reconcileProps (forceTableName model).properties = .ok props')
    (hex : fs (modelFilePath dir (forceTableName model).name) = some orig) :
    (saveModel fs dir model true).1 =
      .saved { orig with properties := casePropsList props' } ∧
    (saveModel fs dir model true).2
        (modelFilePath dir (forceTableName model).name) =
      some { orig with properties := casePropsList props' } := by
  unfold saveModel mergeWithExisting
  simp only [hrec]
  simp only [hex, casePropertiesDataType]
  simp

/-- Witness for C3: a concrete overwrite of `origW` by `modelW` keeps
`origW`'s settings (`someCustomRule`) and extra metadata while replacing
the properties by the new discovery. -/
theorem saveModel_overwrite_preserves_other_fields_witness :
    (saveModel fsW "app/common/models" modelW true).1 =
      .saved { origW with properties := casePropsList [("user_name", propUser)] } ∧
    (saveModel fsW "app/common/models" modelW true).2
        (modelFilePath "app/common/models" (forceTableName modelW).name) =
      some { origW with properties := casePropsList [("user_name", propUser)] } :=
  saveModel_overwrite_preserves_other_fields fsW "app/common/models" modelW origW
    [("user_name", propUser)] (by decide) (by decide)

/-- C6: whenever `saveModel` writes, the persisted model equals the
type-tag canonicalization (`casePropertiesDataType`, which lowercases
every property's type tag) applied to the final merged model — the merge
of the reconciled discovery with any existing file — so every persisted
type tag is in lowercase canonical form regardless of discovery casing. -/
theorem saveModel_canonicalizes_merged (fs : FS) (dir : String)
    (model : Model) (overwrite : Bool) (props' : List (String × PropertyDef))
    (hrec : reconcileProps (forceTableName model).properties = .ok props')
    (hw : (fs (modelFilePath dir (forceTableName model).name)).isSome = false ∨
      overwrite = true) :
    (saveModel fs dir model overwrite).1 =
      .saved (casePropertiesDataType
        (mergeWithExisting fs (modelFilePath dir (forceTableName model).name)
          { forceTableName model with properties := props' })) := by
  unfold saveModel
  simp only [hrec]
  cases hfs : fs (modelFilePath dir (forceTableName model).name) with
  | none =>
      unfold mergeWithExisting
      simp only [hfs]
      rfl
  | some orig =>
      rcases hw with hw | hw
      · rw [hfs] at hw
        cases hw
      · subst hw
        unfold mergeWithExisting
        simp only [hfs, casePropertiesDataType]
        simp

/-- Witness for C6: writing `modelW` (type tag discovered as `"String"`)
over the existing `origW` persists the canonicalized merged model, whose
only property carries the lowercase tag `"string"`. -/
theorem saveModel_canonicalizes_merged_witness :
    (saveModel fsW "app/common/models" modelW true).1 =
      .saved (casePropertiesDataType
        (mergeWithExisting fsW
          (modelFilePath "app/common/models" (forceTableName modelW).name)
          { forceTableName modelW with properties := [("user_name", propUser)] })) :=
  saveModel_canonicalizes_merged fsW "app/common/models" modelW true
    [("user_name", propUser)] (by decide) (Or.inr rfl)

/-- C7: when the target definition file exists and overwrite is false,
`saveModel` performs no filesystem write (the store is returned
unchanged) and reports the skip sentinel `cb(null, null)`, a result
distinct by construction from a saved model and from an error. -/
theorem saveModel_skips_existing (fs : FS) (dir : String) (model : Model)
    (props' : List (String × PropertyDef))
    (hrec : reconcileProps (forceTableName model).properties = .ok props')
    (hex : (fs (modelFilePath dir (forceTableName model).name)).isSome = true) :
    saveModel fs dir model false = (.skipped, fs) := by
  unfold saveModel
  simp only [hrec]
  simp [hex]

/-- Witness for C7: with `origW` already on disk and overwrite false, the
save of `modelW` leaves the store untouched and reports the skip. -/
theorem saveModel_skips_existing_witness :
    saveModel fsW "app/common/models" modelW false = (.skipped, fsW) :=
  saveModel_skips_existing fsW "app/common/models" modelW
    [("user_name", propUser)] (by decide) (by decide)

/-- C10: `addModel` on a registry whose entry for the model name already
exists sets the entry's `dataSource` to the current data source name and
its `public` field to false when the model carries no `isPublic` flag,
overwriting any previously stored `true`. -/
theorem addModel_existing_overwrites_public
    (cfg : List (String × RegistryEntry)) (ds name : String)
    (old : RegistryEntry)
    (hold : objGet cfg name = some old) :
    objGet (addModel cfg ds name none) name =
      some { old with dataSource := ds, publicFlag := false } := by
  unfold addModel
  simp only [hold]
  exact objGet_objSet_self cfg name _

/-- Witness for C10: an entry previously public (`true`) and backed by
`db1` becomes private (`false`) and backed by `db2` after `addModel`
with no `isPublic` flag. -/
theorem addModel_existing_overwrites_public_witness :
    objGet (addModel [("Foo", ⟨"db1", true, []⟩)] "db2" "Foo" none) "Foo" =
      some ⟨"db2", false, []⟩ :=
  addModel_existing_overwrites_public [("Foo", ⟨"db1", true, []⟩)] "db2" "Foo"
    ⟨"db1", true, []⟩ (by decide)

/-- C4: with a non-null table allow-list, if any requested name remains
unconsumed after filtering the discovered tables, the run fails with a
`Tables not found` error naming all remaining entries joined with
`, ` — even when other requested names did match (the hypothesis places
no restriction on matches). -/
theorem discoverModels_unmatched_names_fail (conn : Connector) (fs : FS)
    (dirs : List String) (appPath : String) (req : List String)
    (outputDir : Option String) (overwrite mkdirOk : Bool)
    (tables : List Table)
    (hT : conn.tables = .ok tables)
    (hrem : (filterTables tables req).2 ≠ []) :
    (discoverModels conn fs dirs appPath (some req) outputDir overwrite
      mkdirOk).result =
      .errored (.err ("Tables not found: " ++
        String.intercalate ", " (filterTables tables req).2)) := by
  rw [discoverModels_tables_not_found conn fs dirs appPath req outputDir
    overwrite mkdirOk tables hT hrem]

/-- A connector discovering the single table `a`, used by the C4
witness. -/
def connC4 : Connector := ⟨.ok [⟨"a"⟩], fun _ => .error (.external 0)⟩

/-- Witness for C4: requesting `a` and `b` when only `a` is discovered
fails naming `b`, even though `a` matched. -/
theorem discoverModels_unmatched_names_fail_witness :
    (discoverModels connC4 fs0 [] "app" (some ["a", "b"]) none false
      true).result =
      .errored (.err ("Tables not found: " ++
        String.intercalate ", " (filterTables [⟨"a"⟩] ["a", "b"]).2)) :=
  discoverModels_unmatched_names_fail connC4 fs0 [] "app" ["a", "b"] none
    false true [⟨"a"⟩] rfl (by decide)

/-- C9: when the allow-list holds the same name twice and discovery
returns a table of that name exactly once, only one occurrence is
consumed, so the run fails with the `Tables not found` error whose
remaining-name list still contains the duplicate occurrence. -/
theorem discoverModels_duplicate_request_fails (conn : Connector) (fs : FS)
    (dirs : List String) (appPath : String) (outputDir : Option String)
    (overwrite mkdirOk : Bool) (n : String) (tables : List Table)
    (req : List String)
    (hT : conn.tables = .ok tables)
    (hdup : req.count n = 2)
    (honce : (tables.map Table.name).count n = 1) :
    n ∈ (filterTables tables req).2 ∧
    (discoverModels conn fs dirs appPath (some req) outputDir overwrite
      mkdirOk).result =
      .errored (.err ("Tables not found: " ++
        String.intercalate ", " (filterTables tables req).2)) := by
  have hge := filterTables_count_ge n tables req
  rw [hdup, honce] at hge
  have hcount : 0 < ((filterTables tables req).2).count n := by omega
  have hmem : n ∈ (filterTables tables req).2 := List.count_pos_iff.mp hcount
  have hne : (filterTables tables req).2 ≠ [] := by
    intro h
    rw [h] at hmem
    cases hmem
  refine ⟨hmem, ?_⟩
  rw [discoverModels_tables_not_found conn fs dirs appPath req outputDir
    overwrite mkdirOk tables hT hne]

/-- Witness for C9: requesting `a` twice while one table `a` is
discovered fails, still naming `a`. -/
theorem discoverModels_duplicate_request_fails_witness :
    "a" ∈ (filterTables [⟨"a"⟩] ["a", "a"]).2 ∧
    (discoverModels connC4 fs0 [] "app" (some ["a", "a"]) none false
      true).result =
      .errored (.err ("Tables not found: " ++
        String.intercalate ", " (filterTables [⟨"a"⟩] ["a", "a"]).2)) :=
  discoverModels_duplicate_request_fails connC4 fs0 [] "app" none false true
    "a" [⟨"a"⟩] ["a", "a"] rfl (by decide) (by decide)

/-- A one-property model whose key equals its column name, saved without
incident; used by orchestrator-level runs. -/
def modelOk : Model :=
  ⟨"a", [("id", ⟨"Number", some ⟨"id"⟩⟩)], ⟨none, []⟩, []⟩

/-- A connector discovering table `a` and building `modelOk` for it. -/
def connC8 : Connector := ⟨.ok [⟨"a"⟩], fun _ => .ok [("a", modelOk)]⟩

/-- The C8 run: one requested table that is discovered and saved. -/
def runC8 : DiscoverResult :=
  discoverModels connC8 fs0 ["app/common/models"] "app" (some ["a"]) none
    false true

/-- Counterexample to C8 as stated: the filtering step mutates the
caller-supplied list in place (`options.tablesList.splice`), so after a
run requesting `["a"]` that matched, the caller's list is `[]`, not the
original sequence. -/
theorem callers_list_mutated_counterexample :
    runC8.tablesList = some [] ∧ runC8.tablesList ≠ some ["a"] := by decide

/-- C8 (amended): filtering consumes matched names from the
caller-supplied requested list itself, mutating it in place: after
`discoverModels` the caller's sequence equals the unmatched remainder of
filtering (empty when every name matched), not its original contents. -/
theorem discoverModels_consumes_callers_list (conn : Connector) (fs : FS)
    (dirs : List String) (appPath : String) (req : List String)
    (outputDir : Option String) (overwrite mkdirOk : Bool)
    (tables : List Table)
    (hT : conn.tables = .ok tables) :
    (discoverModels conn fs dirs appPath (some req) outputDir overwrite
      mkdirOk).tablesList = some (filterTables tables req).2 := by
  unfold discoverModels
  rw [hT]
  dsimp only
  split
  · rfl
  · exact discoverCore_tablesList conn fs dirs appPath outputDir overwrite
      mkdirOk (filterTables tables req).1 (some (filterTables tables req).2)

/-- Witness for C8 (amended): after the `runC8` request of `["a"]`, the
caller's list equals the empty unmatched remainder. -/
theorem discoverModels_consumes_callers_list_witness :
    (discoverModels connC8 fs0 ["app/common/models"] "app" (some ["a"]) none
      false true).tablesList = some (filterTables [⟨"a"⟩] ["a"]).2 :=
  discoverModels_consumes_callers_list connC8 fs0 ["app/common/models"] "app"
    ["a"] none false true [⟨"a"⟩] rfl

/-- A model one of whose properties has no `mysql` metadata. -/
def modelNoMeta : Model :=
  ⟨"m", [("id", ⟨"Number", none⟩)], ⟨none, []⟩, []⟩

/-- A connector whose single table builds to `modelNoMeta`. -/
def connC1 : Connector := ⟨.ok [⟨"t"⟩], fun _ => .ok [("m", modelNoMeta)]⟩

/-- The C1 run: discovery succeeds, the save hits the missing-metadata
property. -/
def runC1 : DiscoverResult :=
  discoverModels connC1 fs0 ["app/common/models"] "app" none none false true

/-- Counterexample to C1 as stated: on a model with a property carrying
no `mysql` metadata the run terminates by `process.exit(1)` — the
orchestrator's callback is never invoked, so the failure is NOT surfaced
to the caller as an error result. -/
theorem missing_mysql_exit_counterexample :
    runC1.result = .exited 1 ∧ runC1.result.isErrored = false := by decide

/-- C1 (amended): for every model passed to `saveModel` with some
property carrying no `mysql` metadata — provided no other property's
declared column name re-keys over that property, which would mask the
missing metadata — the save halts the whole process with exit code 1:
nothing is written and no callback (error or success) is ever delivered,
so the discovery run is aborted without the failure becoming the
orchestrator's error result. -/
theorem saveModel_missing_mysql_exits (fs : FS) (dir : String)
    (model : Model) (overwrite : Bool) (k : String) (v : PropertyDef)
    (hget : objGet model.properties k = some v)
    (hmy : v.mysql = none)
    (hnocol : noColTarget model.properties k = true) :
    saveModel fs dir model overwrite = (.exited 1, fs) := by
  have hprops := forceTableName_properties model
  have hk : k ∈ (forceTableName model).properties.map Prod.fst := by
    rw [hprops]
    exact objGet_mem_keys _ _ _ hget
  have hexit : reconcileProps (forceTableName model).properties = .exited := by
    unfold reconcileProps
    apply propLoop_exits k v _ _ hk
    · rw [hprops]
      exact hget
    · exact hmy
    · rw [hprops]
      exact noColTarget_spec _ _ hnocol
  unfold saveModel
  simp only [hexit]

/-- Witness for C1 (amended): saving `modelNoMeta` exits the process with
code 1, leaving the store untouched. -/
theorem saveModel_missing_mysql_exits_witness :
    saveModel fs0 "app/common/models" modelNoMeta false = (.exited 1, fs0) :=
  saveModel_missing_mysql_exits fs0 "app/common/models" modelNoMeta false
    "id" ⟨"Number", none⟩ (by decide) rfl (by decide)

/-- Property `a` declaring column name `b`. -/
def propA5 : PropertyDef := ⟨"String", some ⟨"b"⟩⟩

/-- Property `b` declaring column name `a`. -/
def propB5 : PropertyDef := ⟨"String", some ⟨"a"⟩⟩

/-- A model whose two properties swap each other's column names. -/
def modelSwap : Model :=
  ⟨"m5", [("a", propA5), ("b", propB5)], ⟨none, []⟩, []⟩

/-- What `saveModel` actually persists for `modelSwap`. -/
def savedSwap : Model :=
  ⟨"m5", [("b", ⟨"string", some ⟨"b"⟩⟩)], ⟨none, []⟩, []⟩

/-- Counterexample to C5 as stated: in `modelSwap`, property `b` has
column name `a` (key differs from column name), yet the persisted model
still holds a property keyed `b` — re-keying property `a` under `b`
overwrote it before its own visit, so the discovered key survives. -/
theorem rekey_collision_counterexample :
    propB5.mysql = some ⟨"a"⟩ ∧
    ("b", propB5) ∈ modelSwap.properties ∧
    (saveModel fs0 "d" modelSwap false).1 = .saved savedSwap ∧
    objGet savedSwap.properties "b" = some ⟨"string", some ⟨"b"⟩⟩ := by
  decide

/-- C5 (amended): for every property whose key `k` differs from its
declared database column name, provided `k` is not itself the declared
column name of any property of the model (no re-keying collision), every
model `saveModel` actually persists has no property keyed `k` — the
property was re-keyed under its column name and the old key removed. -/
theorem saveModel_rekey_removes_old_key (fs : FS) (dir : String)
    (model : Model) (overwrite : Bool) (k : String) (v : PropertyDef)
    (mm : MySqlMeta) (sm : Model)
    (hget : objGet model.properties k = some v)
    (hmy : v.mysql = some mm)
    (hne : mm.columnName ≠ k)
    (hnocol : noColTarget model.properties k = true)
    (hsaved : (saveModel fs dir model overwrite).1 = .saved sm) :
    objGet sm.properties k = none := by
  have hprops := forceTableName_properties model
  rcases hrec : reconcileProps (forceTableName model).properties with _ | props'
  · unfold saveModel at hsaved
    simp only [hrec] at hsaved
    cases hsaved
  · have hk : k ∈ (forceTableName model).properties.map Prod.fst := by
      rw [hprops]
      exact objGet_mem_keys _ _ _ hget
    have hnone : objGet props' k = none := by
      apply propLoop_removes_key k v mm
        ((forceTableName model).properties.map Prod.fst)
        (forceTableName model).properties props' hk _ hmy hne _ hrec
      · rw [hprops]
        exact hget
      · rw [hprops]
        exact noColTarget_spec _ _ hnocol
    unfold saveModel at hsaved
    simp only [hrec] at hsaved
    by_cases hcond :
        (!(fs (modelFilePath dir (forceTableName model).name)).isSome
          || overwrite) = true
    · rw [if_pos hcond] at hsaved
      have hsm : sm =
          mergeWithExisting fs (modelFilePath dir (forceTableName model).name)
            (casePropertiesDataType
              { forceTableName model with properties := props' }) := by
        cases hsaved
        rfl
      rw [hsm, mergeWithExisting_properties]
      unfold casePropertiesDataType
      dsimp only
      rw [objGet_casePropsList, hnone]
      rfl
    · rw [if_neg hcond] at hsaved
      cases hsaved

/-- Witness for C5 (amended): saving `modelW`, whose only property
`userName` declares column name `user_name` and collides with nothing,
persists a model with no `userName` key. -/
theorem saveModel_rekey_removes_old_key_witness :
    objGet
      (Model.mk "User" [("user_name", ⟨"string", some ⟨"user_name"⟩⟩)]
        ⟨none, []⟩ []).properties "userName" = none :=
  saveModel_rekey_removes_old_key fs0 "d" modelW false "userName" propUser
    ⟨"user_name"⟩
    (Model.mk "User" [("user_name", ⟨"string", some ⟨"user_name"⟩⟩)]
      ⟨none, []⟩ [])
    (by decide) (by decide) (by decide) (by decide) (by decide)

/-- A connector with two tables: `t1` builds `modelOk`, building `t2`
fails with an external connector error. -/
def connC2 : Connector :=
  ⟨.ok [⟨"t1"⟩, ⟨"t2"⟩],
    fun nm => if nm = "t1" then .ok [("t1", modelOk)]
      else .error (.external 7)⟩

/-- The C2 run: the second table's model build fails. -/
def runC2 : DiscoverResult :=
  discoverModels connC2 fs0 [] "app" none none false true

/-- C2 evaluated at the failing input: when `discoverAndBuildModels`
fails for table `t2`, the orchestrator does NOT abort — the
`async.mapSeries` final callback ignores the build error, so directory
creation is still attempted, the save loop still runs (saving `t1`'s
model and then hitting the `undefined` placeholder for `t2`), and the
callback finally receives a TypeError instead of the build error. -/
theorem build_error_swallowed_bug :
    runC2.result = .errored (.typeError "Cannot read properties of undefined") ∧
    runC2.result ≠ .errored (.external 7) ∧
    runC2.mkdirAttempted = true ∧
    runC2.saveAttempts = [some modelOk, none] := by decide
